import Mathlib

/-!
Shallow embedding of the calibration-script repository (two CLI tools):

* `GatewayCalibrationTool` (src/unnamed/part_000) — point-style calibration:
  one filtered gateway, one scalar distance, flat 5-column table.
* `FingerprintCollectionTool` (src/app/tools/fingerprint-collection-tool.js) —
  survey-style fingerprinting: all gateways, (x, y, z) coordinates, a table
  whose column set grows as new gateway MACs are observed.

JavaScript numbers that can be NaN/Infinity (operator input parsed with
`parseFloat`) are modelled by `JSNum`; RSSI sample values always come from
`JSON.parse` and are therefore finite, modelled directly as `ℚ`.
-/

/-- A JavaScript number as produced by `parseFloat`: NaN, ±Infinity, or a
finite value (modelled as a rational). -/
inductive JSNum where
  | nan : JSNum
  | inf (pos : Bool) : JSNum
  | fin (q : ℚ) : JSNum
deriving DecidableEq, Repr

namespace JSNum

/-- `isNaN(d)` in JavaScript. -/
def isNaN : JSNum → Bool
  | .nan => true
  | _ => false

/-- The JavaScript comparison `d <= 0` (false for NaN and +Infinity). -/
def le0 : JSNum → Bool
  | .nan => false
  | .inf pos => !pos
  | .fin q => decide (q ≤ 0)

/-- Whether the value is an ordinary finite number (spec notion; used to state
the operator-input contract of the spec, which requires finiteness). -/
def isFinite : JSNum → Bool
  | .fin _ => true
  | _ => false

end JSNum

/-- One spreadsheet cell: a string or a JavaScript number. -/
inductive Cell where
  | s (v : String) : Cell
  | n (v : JSNum) : Cell
deriving DecidableEq, Repr

/-- A finite numeric cell. -/
def Cell.q (v : ℚ) : Cell := Cell.n (JSNum.fin v)

/-- A decoded MQTT payload, after `JSON.parse` succeeded.
`deviceMac` is `payload.device_info.mac` when `device_info` exists and its
`mac` field is a string (a non-string `mac` makes `.toUpperCase()` throw,
which the surrounding try/catch turns into a no-op, the same as absence).
`data` is `some entries` when `Array.isArray(payload.data)`; each entry is
`some rssi` when `typeof item.rssi === 'number'` (JSON numbers are finite),
`none` otherwise. -/
structure Payload where
  deviceMac : Option String
  data : Option (List (Option ℚ))
deriving DecidableEq, Repr

/-- `JSON.parse` result for one raw message: `none` when parsing failed. -/
abbrev Msg := Option Payload

/-- `s.toUpperCase()` (all identifiers this program upper-cases are ASCII). -/
def strUpper (s : String) : String := ⟨s.data.map Char.toUpper⟩

/-- `s.toLowerCase()` (sheet-name keywords are ASCII). -/
def strLower (s : String) : String := ⟨s.data.map Char.toLower⟩

/-- `s.trim()`: strip whitespace from both ends. -/
def strTrim (s : String) : String :=
  ⟨((s.data.dropWhile Char.isWhitespace).reverse.dropWhile
      Char.isWhitespace).reverse⟩

/-- Lexicographic code-unit comparison, the default JS `Array.sort` order for
strings. -/
def charsLe : List Char → List Char → Bool
  | [], _ => true
  | _ :: _, [] => false
  | a :: as, b :: bs => if a = b then charsLe as bs else decide (a < b)

/-- `a <= b` in the default JS string sort. -/
def strLe (a b : String) : Bool := charsLe a.data b.data

/-- `values.reduce((a, b) => a + b, 0)`. -/
def listSum (l : List ℚ) : ℚ := l.foldl (· + ·) 0

/-- `Math.min(...values)` for a non-empty `values` (the `[]` case returns `0`
and is never reached: both tools only take minima of non-empty groups, or
guard with `length > 0 ? ... : 0` exactly as modelled at the call sites). -/
def listMin : List ℚ → ℚ
  | [] => 0
  | h :: t => t.foldl min h

/-- `Math.max(...values)` for a non-empty `values` (see `listMin`). -/
def listMax : List ℚ → ℚ
  | [] => 0
  | h :: t => t.foldl max h

/-- Per-source statistics, as both tools compute them:
`{ samples: values.length, avg: sum/length, min: Math.min(...), max: Math.max(...) }`. -/
structure Stat where
  samples : ℕ
  avg : ℚ
  min : ℚ
  max : ℚ
deriving DecidableEq, Repr

/-- The statistics record both tools build from one group of sample values. -/
def mkStat (vs : List ℚ) : Stat :=
  { samples := vs.length
    avg := listSum vs / (vs.length : ℚ)
    min := listMin vs
    max := listMax vs }

/-- Association-list lookup by string key (JS `Map.get` / object access;
keys are unique in every map the tools build). -/
def alistGet {β : Type} : List (String × β) → String → Option β
  | [], _ => none
  | e :: t, k => if e.1 = k then some e.2 else alistGet t k

/-- `recordings.get(mac).push(v)`, creating the entry first when absent
(`if (!recordings.has(mac)) recordings.set(mac, [])`). New keys go to the
end, matching JS `Map` insertion order. -/
def mapPush : List (String × List ℚ) → String → ℚ → List (String × List ℚ)
  | [], k, v => [(k, [v])]
  | e :: t, k, v => if e.1 = k then (e.1, e.2 ++ [v]) :: t else e :: mapPush t k v

/-- `Set.add`: JS `Set` keeps insertion order and ignores duplicates. -/
def setAdd (s : List String) (x : String) : List String :=
  if x ∈ s then s else s ++ [x]

/-- State of the fingerprint tool during one recording window:
`recordings : Map<gatewayMac, rssi[]>` and `gatewayMacs : Set<string>`. -/
structure FpState where
  recordings : List (String × List ℚ)
  gatewayMacs : List String
deriving DecidableEq, Repr

/-- `FingerprintCollectionTool.handleMessage`. Guards in source order:
recording must be active; JSON must parse; `device_info.mac` must be a truthy
string; `payload.data` must be an array. Then the upper-cased gateway MAC is
added to `gatewayMacs` *before* the entries are scanned, and every numeric
`rssi` is pushed onto that gateway's recording list. An entry that is not a
number contributes nothing. -/
def fpHandleMessage (isRecording : Bool) (st : FpState) (msg : Msg) : FpState :=
  if !isRecording then st else
  match msg with
  | none => st
  | some p =>
    match p.deviceMac with
    | none => st
    | some macRaw =>
      if macRaw = "" then st else
      match p.data with
      | none => st
      | some entries =>
        let mac := strUpper macRaw
        let macs := setAdd st.gatewayMacs mac
        let recs := entries.foldl
          (fun recs e => match e with
            | some v => mapPush recs mac v
            | none => recs) st.recordings
        ⟨recs, macs⟩

/-- `GatewayCalibrationTool.handleMessage`: same guards, but only messages
whose upper-cased gateway MAC equals the target are kept; their numeric
`rssi` values are appended to the flat recording list. -/
def gwHandleMessage (targetMac : String) (recs : List ℚ) (msg : Msg) : List ℚ :=
  match msg with
  | none => recs
  | some p =>
    match p.deviceMac with
    | none => recs
    | some macRaw =>
      if macRaw = "" then recs else
      match p.data with
      | none => recs
      | some entries =>
        if strUpper macRaw ≠ targetMac then recs
        else recs ++ entries.filterMap id

/-- Folding a whole message stream through the fingerprint ingestor, starting
from the cleared state set up by `recordMeasurement` (`recordings.clear();
gatewayMacs.clear(); isRecording = true`). -/
def fpRun (msgs : List Msg) : FpState :=
  msgs.foldl (fpHandleMessage true) ⟨[], []⟩

/-- Folding a message stream through the calibration ingestor, starting from
the cleared `recordings = []`. -/
def gwRun (targetMac : String) (msgs : List Msg) : List ℚ :=
  msgs.foldl (gwHandleMessage targetMac) []

/-- Feeding a flat arrival sequence of `(mac, rssi)` samples into the
fingerprint buffer `Map` — the composition of ingestion steps that
`handleMessage` performs for accepted samples, used to compare two windows
whose buffers received the same samples in different orders. -/
def fpIngest (l : List (String × ℚ)) : List (String × List ℚ) :=
  l.foldl (fun m p => mapPush m p.1 p.2) []

/-- The values of one source in arrival order inside a flat sample sequence. -/
def valuesFor (l : List (String × ℚ)) (k : String) : List ℚ :=
  l.filterMap (fun p => if p.1 = k then some p.2 else none)

/-- `allRssiValues`: concatenation of every group's values in `Map` iteration
(insertion) order — `recordings.forEach(... allRssiValues.push(...rssiValues))`. -/
def fpAllValues : List (String × List ℚ) → List ℚ
  | [] => []
  | e :: t => e.2 ++ fpAllValues t

/-- `Math.round(x * 100) / 100` — two-decimal rounding; JS `Math.round`
rounds halves toward +∞, which is Mathlib's `round`. -/
def jsRound2 (q : ℚ) : ℚ := ((round (q * 100) : ℤ) : ℚ) / 100

/-- `rssiReadings`: per-gateway rounded means,
`rssiReadings[mac] = Math.round(avg * 100) / 100`. -/
def fpReadings (m : List (String × List ℚ)) : List (String × ℚ) :=
  m.map (fun e => (e.1, jsRound2 (listSum e.2 / (e.2.length : ℚ))))

/-- An xlsx workbook: `SheetNames` order with the sheet contents, each sheet a
row-major list of rows. Sheet names are unique in every real workbook. -/
structure Workbook where
  sheets : List (String × List (List Cell))
deriving DecidableEq, Repr

/-- `XLSX.utils.book_new()`. -/
def emptyWb : Workbook := ⟨[]⟩

/-- `workbook.Sheets[name] = ws` plus pushing `name` onto `SheetNames` when it
is new (this is also exactly what `XLSX.utils.book_append_sheet` does). -/
def wbSetRows : List (String × List (List Cell)) → String → List (List Cell) →
    List (String × List (List Cell))
  | [], name, rows => [(name, rows)]
  | e :: t, name, rows =>
    if e.1 = name then (e.1, rows) :: t else e :: wbSetRows t name rows

/-- Replace/append a sheet in a workbook. -/
def wbSet (w : Workbook) (name : String) (rows : List (List Cell)) : Workbook :=
  ⟨wbSetRows w.sheets name rows⟩

/-- The persisted store file: absent, present but unparsable, or a parsed
workbook. -/
inductive Store where
  | absent : Store
  | corrupt : Store
  | wb (w : Workbook) : Store
deriving DecidableEq, Repr

/-- Whether `hay` starts with `needle` (character-list version). -/
def charsStartWith : List Char → List Char → Bool
  | _, [] => true
  | [], _ :: _ => false
  | h :: ht, n :: nt => h = n && charsStartWith ht nt

/-- Whether `needle` occurs contiguously inside `hay`. -/
def charsContain (hay needle : List Char) : Bool :=
  match hay with
  | [] => needle.isEmpty
  | _ :: t => charsStartWith hay needle || charsContain t needle

/-- Case-insensitive substring test, `name.toLowerCase().includes(needle)`. -/
def strContainsSub (hay needle : String) : Bool :=
  charsContain (strLower hay).data needle.data

/-- Pad a row with empty cells up to the sheet's column range width — reading
a rectangular range returns `''` for missing cells. -/
def padTo (n : ℕ) (r : List Cell) : List Cell :=
  r ++ List.replicate (n - r.length) (Cell.s "")

/-- Reading back all rows of a sheet over its full `!ref` range: every row is
padded to the widest row's length. -/
def rectangularize (rows : List (List Cell)) : List (List Cell) :=
  let w := (rows.map List.length).foldr max 0
  rows.map (padTo w)

/-- The fingerprint tool's manual cell-by-cell read of the located sheet.
A sheet with no cells has no `!ref`, and `decode_range('A1')` yields the
single empty cell. -/
def fpLoadRows (rows : List (List Cell)) : List (List Cell) :=
  if rows.isEmpty then [[Cell.s ""]] else rectangularize rows

/-- Fixed leading columns of the fingerprint table (fresh-file header). -/
def fpFreshHeaders : List String :=
  ["Location ID", "X (m)", "Y (m)", "Z (m)",
   "Min RSSI (dBm)", "Max RSSI (dBm)", "Total Samples"]

/-- `baseCols` in `writeToExcel`. -/
def fpBaseCols : List String := ["Location ID", "X (m)", "Y (m)", "Z (m)"]

/-- `requiredStatsCols` in `writeToExcel`. -/
def fpStatsCols : List String :=
  ["Min RSSI (dBm)", "Max RSSI (dBm)", "Total Samples"]

/-- Header used when reading the existing file threw
(`catch` branch: only the four base columns). -/
def fpCatchHeaders : List String := ["Location ID", "X (m)", "Y (m)", "Z (m)"]

/-- `cols.includes(cellValue)`: a header cell matches a column-name list only
when it is that string. -/
def cellInStrs (c : Cell) (ss : List String) : Bool :=
  match c with
  | .s v => decide (v ∈ ss)
  | .n _ => false

/-- The `for`-loop with `break` computing `statsColStartIndex`: index of the
first header cell that is one of the base columns (only its `=== -1` test is
ever used downstream). -/
def firstBaseIdx : List Cell → Option ℕ
  | [] => none
  | c :: t => if cellInStrs c fpBaseCols then some 0 else (firstBaseIdx t).map (· + 1)

/-- `headers.findIndex(h => !baseCols.includes(h) && !requiredStatsCols.includes(h))`. -/
def firstOtherIdx : List Cell → Option ℕ
  | [] => none
  | c :: t =>
    if !cellInStrs c fpBaseCols && !cellInStrs c fpStatsCols then some 0
    else (firstOtherIdx t).map (· + 1)

/-- `xs.splice(n, 0, ...ins)` (insert, clamped to the end when `n ≥ length`). -/
def spliceIn (n : ℕ) (ins xs : List Cell) : List Cell :=
  xs.take n ++ ins ++ xs.drop n

/-- The backward-compatibility block of `FingerprintCollectionTool.writeToExcel`:
when no base column is found in the header, or `'Min RSSI (dBm)'` is missing,
the three stats columns are spliced in after the base columns and every data
row is padded with three empty values there. `headers` aliases `data[0]`, so
the returned data carries the new header as row 0. -/
def fpBackfill (headers : List Cell) (data : List (List Cell)) :
    List Cell × List (List Cell) :=
  if (firstBaseIdx headers).isNone || !(Cell.s "Min RSSI (dBm)" ∈ headers) then
    let baseEnd := (firstOtherIdx headers).getD headers.length
    let headers2 := spliceIn baseEnd (fpStatsCols.map Cell.s) headers
    let tail2 := (data.drop 1).map
      (fun r => spliceIn (min fpBaseCols.length r.length)
        [Cell.s "", Cell.s "", Cell.s ""] r)
    (headers2, headers2 :: tail2)
  else (headers, data)

/-- Sheet located by `FingerprintCollectionTool.writeToExcel`:
`SheetNames.find(name => name.toLowerCase().includes('fingerprint') ||
name.toLowerCase().includes('data')) || SheetNames[0] || 'Fingerprint Data'`. -/
def fpLocate (w : Workbook) : String :=
  ((w.sheets.map Prod.fst).find?
    (fun n => strContainsSub n "fingerprint" || strContainsSub n "data")).getD
    (((w.sheets.map Prod.fst).head?).getD "Fingerprint Data")

/-- Insertion sort on strings: the result of `Array.from(set).sort()` (the
observed MAC sets are duplicate-free, so stability is irrelevant). -/
def insertSorted (x : String) : List String → List String
  | [] => [x]
  | y :: t => if strLe x y then x :: y :: t else y :: insertSorted x t

/-- `macs.sort()`. -/
def sortStrings : List String → List String
  | [] => []
  | x :: t => insertSorted x (sortStrings t)

/-- One cell of the appended row for gateway `mac`:
`rssiReadings[mac] || ''` — an absent reading *and* a reading of exactly `0`
(both falsy) store the empty string. -/
def gatewayCell (readings : List (String × ℚ)) (mac : String) : Cell :=
  match alistGet readings mac with
  | some q => if q = 0 then Cell.s "" else Cell.q q
  | none => Cell.s ""

/-- The row `FingerprintCollectionTool.writeToExcel` appends: location fields,
rounded overall min/max, total sample count, then one value per *observed*
gateway in sorted order (the header's full column order is not consulted). -/
def fpNewRow (locId : String) (x y z : JSNum) (omin omax : ℚ) (total : ℕ)
    (readings : List (String × ℚ)) (macsSorted : List String) : List Cell :=
  [Cell.s locId, Cell.n x, Cell.n y, Cell.n z,
   Cell.q (jsRound2 omin), Cell.q (jsRound2 omax), Cell.q (total : ℚ)]
  ++ macsSorted.map (gatewayCell readings)

/-- `gatewayMacs.forEach(mac => { if (!headers.includes(mac)) headers.push(mac) })`. -/
def appendNewMacs (headers : List Cell) (macs : List String) : List Cell :=
  macs.foldl (fun hs m => if Cell.s m ∈ hs then hs else hs ++ [Cell.s m]) headers

/-- Load phase of `FingerprintCollectionTool.writeToExcel`: produces the
warning flag (`console.error('Error reading existing file, creating new', …)`),
the workbook that will be written back, and the current header/data.
A missing file starts a fresh workbook with the seven fixed columns; a file
that throws anywhere while being read (unparsable, or no sheet so that
`worksheet['!ref']` dereferences `undefined`) hits the `catch` and starts a
fresh workbook with only the four base columns. -/
def fpLoadPhase (store : Store) :
    Bool × Workbook × List Cell × List (List Cell) :=
  match store with
  | .absent =>
    (false, emptyWb, fpFreshHeaders.map Cell.s, [fpFreshHeaders.map Cell.s])
  | .corrupt =>
    (true, emptyWb, fpCatchHeaders.map Cell.s, [fpCatchHeaders.map Cell.s])
  | .wb w =>
    match alistGet w.sheets (fpLocate w) with
    | none =>
      (true, emptyWb, fpCatchHeaders.map Cell.s, [fpCatchHeaders.map Cell.s])
    | some rs =>
      let data := fpLoadRows rs
      let headers := (data.head?).getD []
      if data.isEmpty || headers.isEmpty then
        (false, w, fpFreshHeaders.map Cell.s, [fpFreshHeaders.map Cell.s])
      else
        let hd := fpBackfill headers data
        (false, w, hd.1, hd.2)

/-- `FingerprintCollectionTool.writeToExcel`: load/reconcile, append any new
observed gateway columns, build the new row, set row 0 to the final header
(`data[0]` aliases `headers` in the source), append the row, and store the
result under the fixed sheet name `'Fingerprint Data'`. Returns
`(warning-was-printed, workbook-written)`. -/
def fpWriteToExcel (store : Store) (locId : String) (x y z : JSNum)
    (omin omax : ℚ) (total : ℕ) (readings : List (String × ℚ))
    (obsMacs : List String) : Bool × Workbook :=
  let lp := fpLoadPhase store
  let macs := sortStrings obsMacs
  let headers2 := appendNewMacs lp.2.2.1 macs
  let newRow := fpNewRow locId x y z omin omax total readings macs
  let data2 := (lp.2.2.2.set 0 headers2) ++ [newRow]
  (lp.1, wbSet lp.2.1 "Fingerprint Data" data2)

/-- Header row of the calibration table. -/
def gwHeaders : List String :=
  ["Gateway MAC", "Distance (m)", "RSSI (dBm)", "Notes", "Timestamp"]

/-- The row `GatewayCalibrationTool.writeToExcel` appends:
`[gatewayMac, distance, Math.round(rssi*100)/100, '', timestamp]`. -/
def gwNewRow (mac : String) (dist : JSNum) (rssi : ℚ) (ts : String) : List Cell :=
  [Cell.s mac, Cell.n dist, Cell.q (jsRound2 rssi), Cell.s "", Cell.s ts]

/-- Sheet located by `GatewayCalibrationTool.writeToExcel`
(`'calibration'`/`'data'` keyword, else first sheet; `none` when the workbook
has no sheets at all). -/
def gwLocate (w : Workbook) : Option String :=
  ((w.sheets.map Prod.fst).find?
    (fun n => strContainsSub n "calibration" || strContainsSub n "data")).orElse
    (fun _ => (w.sheets.map Prod.fst).head?)

/-- Display form `sheet_to_json(…, { raw: false })` gives a numeric cell.
The exact JS decimal rendering is not reproduced; no verified property reads
these strings (only the string-cell test `includes('Gateway MAC')` matters,
and a stringified number is never that header word). -/
def jsDisplay : JSNum → String
  | .nan => "NaN"
  | .inf true => "Infinity"
  | .inf false => "-Infinity"
  | .fin q => toString q

/-- `raw: false` conversion of one cell. -/
def gwDisp : Cell → Cell
  | .s v => .s v
  | .n j => .s (jsDisplay j)

/-- `XLSX.utils.sheet_to_json(ws, { header: 1, defval: '', raw: false })`:
dense rows over the sheet range with display-formatted values; an empty sheet
yields `[]`. -/
def gwLoadRows (rows : List (List Cell)) : List (List Cell) :=
  (rectangularize rows).map (List.map gwDisp)

/-- `GatewayCalibrationTool.writeToExcel`. Unlike the fingerprint tool there
is **no** try/catch around `XLSX.readFile`: an unparsable store (or a store
with no readable sheet, making `sheet_to_json` throw) propagates as an error
and the cycle aborts. On success the table (with a synthesized header when
the first row lacks `'Gateway MAC'`) plus the new row is stored under the
fixed sheet name `'Calibration Data'`. -/
def gwWriteToExcel (store : Store) (mac : String) (dist : JSNum) (rssi : ℚ)
    (ts : String) : Except String Workbook :=
  match store with
  | .corrupt => .error "XLSX.readFile threw: unparsable store"
  | .absent =>
    .ok (wbSet emptyWb "Calibration Data"
      ([gwHeaders.map Cell.s] ++ [gwNewRow mac dist rssi ts]))
  | .wb w =>
    match (gwLocate w).bind (alistGet w.sheets) with
    | none => .error "sheet_to_json threw: no sheet"
    | some rs =>
      let data := gwLoadRows rs
      let data := if data.isEmpty then [gwHeaders.map Cell.s] else data
      let data :=
        if !(Cell.s "Gateway MAC" ∈ (data.head?).getD []) then
          gwHeaders.map Cell.s :: data
        else data
      .ok (wbSet w "Calibration Data" (data ++ [gwNewRow mac dist rssi ts]))

/-- The validated context of a calibration cycle. -/
structure GwCtx where
  mac : String
  dist : JSNum
deriving DecidableEq, Repr

/-- Operator-input validation of `GatewayCalibrationTool.recordMeasurement`:
a MAC that is non-empty after trimming, and a distance with
`!(isNaN(d) || d <= 0)` — note that `+Infinity` passes this test. -/
def gwValidate (macIn : String) (dIn : JSNum) : Option GwCtx :=
  if strTrim macIn = "" then none
  else if dIn.isNaN || dIn.le0 then none
  else some ⟨strUpper (strTrim macIn), dIn⟩

/-- The validated context of a survey cycle. -/
structure SurveyCtx where
  locId : String
  x : JSNum
  y : JSNum
  z : JSNum
deriving DecidableEq, Repr

/-- Operator-input validation of `FingerprintCollectionTool.recordMeasurement`:
non-empty location id, `!isNaN` x and y, and z defaulting to `0` when the
input was blank (`zIn = none`) but `!isNaN` when given — `±Infinity` passes
every numeric test here as well. -/
def fpValidate (locIn : String) (xIn yIn : JSNum) (zIn : Option JSNum) :
    Option SurveyCtx :=
  if strTrim locIn = "" then none
  else if xIn.isNaN then none
  else if yIn.isNaN then none
  else
    let z := zIn.getD (JSNum.fin 0)
    if z.isNaN then none
    else some ⟨strTrim locIn, xIn, yIn, z⟩

/-- Result of one recording cycle. -/
inductive Outcome where
  | skipped : Outcome
  | noData : Outcome
  | written : Outcome
  | aborted : Outcome
deriving DecidableEq, Repr

/-- One full `GatewayCalibrationTool.recordMeasurement` cycle over a given
message stream: validation (skip on failure), windowed collection, the
`recordings.length === 0` no-data early return, and otherwise reduce + write.
A write error aborts without touching the store. -/
def gwCycle (macIn : String) (dIn : JSNum) (msgs : List Msg) (ts : String)
    (store : Store) : Outcome × Store :=
  match gwValidate macIn dIn with
  | none => (.skipped, store)
  | some ctx =>
    let recs := gwRun ctx.mac msgs
    if recs.length = 0 then (.noData, store)
    else
      let st := mkStat recs
      match gwWriteToExcel store ctx.mac ctx.dist st.avg ts with
      | .ok wb => (.written, .wb wb)
      | .error _ => (.aborted, store)

/-- One full `FingerprintCollectionTool.recordMeasurement` cycle:
validation, windowed collection, the `recordings.size === 0` no-data early
return, then per-gateway reduction, overall min/max/total (guarded with
`length > 0 ? … : 0` as in the source) and the Excel write. -/
def fpCycle (locIn : String) (xIn yIn : JSNum) (zIn : Option JSNum)
    (msgs : List Msg) (store : Store) : Outcome × Store :=
  match fpValidate locIn xIn yIn zIn with
  | none => (.skipped, store)
  | some ctx =>
    let st := fpRun msgs
    if st.recordings.length = 0 then (.noData, store)
    else
      let readings := fpReadings st.recordings
      let allVals := fpAllValues st.recordings
      let omin := if allVals.length > 0 then listMin allVals else 0
      let omax := if allVals.length > 0 then listMax allVals else 0
      let res := fpWriteToExcel store ctx.locId ctx.x ctx.y ctx.z omin omax
        allVals.length readings st.gatewayMacs
      (.written, .wb res.2)

/-- The schema (header row) of the fingerprint table inside a workbook. -/
def fpSchema (w : Workbook) : List Cell :=
  (((alistGet w.sheets "Fingerprint Data").getD []).head?).getD []

/-! ### Lemmas about the statistical reducer -/

theorem listSum_cons (x : ℚ) (t : List ℚ) : listSum (x :: t) = x + listSum t := by
  have aux : ∀ (l : List ℚ) (a : ℚ), l.foldl (· + ·) a = a + l.foldl (· + ·) 0 := by
    intro l
    induction l with
    | nil => intro a; simp
    | cons y ys ih =>
      intro a
      simp only [List.foldl_cons]
      rw [ih (a + y), ih (0 + y)]
      ring
  simp only [listSum, List.foldl_cons]
  rw [aux t (0 + x)]
  ring

theorem listSum_perm {l₁ l₂ : List ℚ} (h : l₁.Perm l₂) : listSum l₁ = listSum l₂ := by
  induction h with
  | nil => rfl
  | cons x _ ih => rw [listSum_cons, listSum_cons, ih]
  | swap x y l => rw [listSum_cons, listSum_cons, listSum_cons, listSum_cons]; ring
  | trans _ _ ih₁ ih₂ => rw [ih₁, ih₂]

theorem foldl_min_le_init (t : List ℚ) : ∀ a : ℚ, t.foldl min a ≤ a := by
  induction t with
  | nil => intro a; simp
  | cons x xs ih =>
    intro a
    simp only [List.foldl_cons]
    exact le_trans (ih (min a x)) (min_le_left a x)

theorem foldl_min_le_mem (t : List ℚ) : ∀ a x : ℚ, x ∈ t → t.foldl min a ≤ x := by
  induction t with
  | nil => intro a x hx; cases hx
  | cons y ys ih =>
    intro a x hx
    simp only [List.foldl_cons]
    rcases List.mem_cons.mp hx with rfl | hx
    · exact le_trans (foldl_min_le_init ys (min a x)) (min_le_right a x)
    · exact ih (min a y) x hx

theorem foldl_min_mem (t : List ℚ) : ∀ a : ℚ, t.foldl min a = a ∨ t.foldl min a ∈ t := by
  induction t with
  | nil => intro a; left; rfl
  | cons y ys ih =>
    intro a
    rcases ih (min a y) with h | h
    · rcases min_choice a y with hm | hm
      · left; simp only [List.foldl_cons]; rw [h, hm]
      · right; simp only [List.foldl_cons]; rw [h, hm]; exact List.mem_cons_self y ys
    · right; exact List.mem_cons_of_mem y h

theorem listMin_le {l : List ℚ} {x : ℚ} (hx : x ∈ l) : listMin l ≤ x := by
  cases l with
  | nil => cases hx
  | cons h t =>
    rcases List.mem_cons.mp hx with rfl | hx
    · exact foldl_min_le_init t x
    · exact foldl_min_le_mem t h x hx

theorem listMin_mem {l : List ℚ} (hl : l ≠ []) : listMin l ∈ l := by
  cases l with
  | nil => exact absurd rfl hl
  | cons h t =>
    rcases foldl_min_mem t h with he | he
    · simp only [listMin]; rw [he]; exact List.mem_cons_self h t
    · exact List.mem_cons_of_mem h he

theorem foldl_max_le_init (t : List ℚ) : ∀ a : ℚ, a ≤ t.foldl max a := by
  induction t with
  | nil => intro a; simp
  | cons x xs ih =>
    intro a
    simp only [List.foldl_cons]
    exact le_trans (le_max_left a x) (ih (max a x))

theorem foldl_max_le_mem (t : List ℚ) : ∀ a x : ℚ, x ∈ t → x ≤ t.foldl max a := by
  induction t with
  | nil => intro a x hx; cases hx
  | cons y ys ih =>
    intro a x hx
    simp only [List.foldl_cons]
    rcases List.mem_cons.mp hx with rfl | hx
    · exact le_trans (le_max_right a x) (foldl_max_le_init ys (max a x))
    · exact ih (max a y) x hx

theorem foldl_max_mem (t : List ℚ) : ∀ a : ℚ, t.foldl max a = a ∨ t.foldl max a ∈ t := by
  induction t with
  | nil => intro a; left; rfl
  | cons y ys ih =>
    intro a
    rcases ih (max a y) with h | h
    · rcases max_choice a y with hm | hm
      · left; simp only [List.foldl_cons]; rw [h, hm]
      · right; simp only [List.foldl_cons]; rw [h, hm]; exact List.mem_cons_self y ys
    · right; exact List.mem_cons_of_mem y h

theorem le_listMax {l : List ℚ} {x : ℚ} (hx : x ∈ l) : x ≤ listMax l := by
  cases l with
  | nil => cases hx
  | cons h t =>
    rcases List.mem_cons.mp hx with rfl | hx
    · exact foldl_max_le_init t x
    · exact foldl_max_le_mem t h x hx

theorem listMax_mem {l : List ℚ} (hl : l ≠ []) : listMax l ∈ l := by
  cases l with
  | nil => exact absurd rfl hl
  | cons h t =>
    rcases foldl_max_mem t h with he | he
    · simp only [listMax]; rw [he]; exact List.mem_cons_self h t
    · exact List.mem_cons_of_mem h he

theorem listMin_perm {l₁ l₂ : List ℚ} (h : l₁.Perm l₂) : listMin l₁ = listMin l₂ := by
  cases l₁ with
  | nil => rw [List.Perm.eq_nil h.symm]
  | cons a t =>
    have h₂ : l₂ ≠ [] := by
      intro he; rw [he] at h; exact List.cons_ne_nil a t (List.Perm.eq_nil h)
    have h₁ : (a :: t) ≠ ([] : List ℚ) := List.cons_ne_nil a t
    apply le_antisymm
    · exact listMin_le (h.mem_iff.mpr (listMin_mem h₂))
    · exact listMin_le (h.symm.mem_iff.mpr (listMin_mem h₁))

theorem listMax_perm {l₁ l₂ : List ℚ} (h : l₁.Perm l₂) : listMax l₁ = listMax l₂ := by
  cases l₁ with
  | nil => rw [List.Perm.eq_nil h.symm]
  | cons a t =>
    have h₂ : l₂ ≠ [] := by
      intro he; rw [he] at h; exact List.cons_ne_nil a t (List.Perm.eq_nil h)
    have h₁ : (a :: t) ≠ ([] : List ℚ) := List.cons_ne_nil a t
    apply le_antisymm
    · exact le_listMax (h.symm.mem_iff.mpr (listMax_mem h₁))
    · exact le_listMax (h.mem_iff.mpr (listMax_mem h₂))

theorem mkStat_perm {l₁ l₂ : List ℚ} (h : l₁.Perm l₂) : mkStat l₁ = mkStat l₂ := by
  simp only [mkStat, h.length_eq, listSum_perm h, listMin_perm h, listMax_perm h]

theorem mul_length_le_listSum {l : List ℚ} {c : ℚ} (hc : ∀ x ∈ l, c ≤ x) :
    c * (l.length : ℚ) ≤ listSum l := by
  induction l with
  | nil => simp [listSum]
  | cons x t ih =>
    rw [listSum_cons]
    have h₁ : c * ((x :: t).length : ℚ) = c + c * (t.length : ℚ) := by
      push_cast [List.length_cons]
      ring
    rw [h₁]
    exact add_le_add (hc x (List.mem_cons_self x t))
      (ih (fun y hy => hc y (List.mem_cons_of_mem x hy)))

theorem listSum_le_mul_length {l : List ℚ} {c : ℚ} (hc : ∀ x ∈ l, x ≤ c) :
    listSum l ≤ c * (l.length : ℚ) := by
  induction l with
  | nil => simp [listSum]
  | cons x t ih =>
    rw [listSum_cons]
    have h₁ : c * ((x :: t).length : ℚ) = c + c * (t.length : ℚ) := by
      push_cast [List.length_cons]
      ring
    rw [h₁]
    exact add_le_add (hc x (List.mem_cons_self x t))
      (ih (fun y hy => hc y (List.mem_cons_of_mem x hy)))

/-! ### Lemmas about the recordings map -/

theorem alistGet_mapPush :
    ∀ (m : List (String × List ℚ)) (k : String) (v : ℚ) (k' : String),
    alistGet (mapPush m k v) k' =
      if k' = k then some (((alistGet m k).getD []) ++ [v]) else alistGet m k'
  | [], k, v, k' => by
    by_cases hk : k' = k
    · subst hk; simp [mapPush, alistGet]
    · have hk2 : ¬(k = k') := fun h => hk h.symm
      simp [mapPush, alistGet, hk, hk2]
  | e :: t, k, v, k' => by
    by_cases he : e.1 = k
    · by_cases hk : k' = e.1
      · subst hk; subst he
        simp [mapPush, alistGet]
      · have hk2 : ¬(k' = k) := by rw [← he]; exact hk
        have hk3 : ¬(e.1 = k') := fun h => hk h.symm
        have hk4 : ¬(k = k') := fun h => hk2 h.symm
        simp [mapPush, he, alistGet, hk2, hk3, hk4]
    · by_cases hk : e.1 = k'
      · have hk2 : ¬(k' = k) := by rw [← hk]; exact he
        simp [mapPush, he, alistGet, hk, hk2]
      · simp [mapPush, he, alistGet, hk, alistGet_mapPush t k v k']

/-- How one sample-arrival list transforms a lookup into the buffer map. -/
def optJoin (o : Option (List ℚ)) (vs : List ℚ) : Option (List ℚ) :=
  match o with
  | some u => some (u ++ vs)
  | none => if vs = [] then none else some vs

theorem valuesFor_cons (p : String × ℚ) (l : List (String × ℚ)) (k : String) :
    valuesFor (p :: l) k =
      if p.1 = k then p.2 :: valuesFor l k else valuesFor l k := by
  by_cases h : p.1 = k <;> simp [valuesFor, h]

theorem alistGet_foldl_mapPush (l : List (String × ℚ)) :
    ∀ (m : List (String × List ℚ)) (k : String),
      alistGet (l.foldl (fun m p => mapPush m p.1 p.2) m) k =
        optJoin (alistGet m k) (valuesFor l k) := by
  induction l with
  | nil =>
    intro m k
    simp only [List.foldl_nil, valuesFor, List.filterMap_nil, optJoin]
    cases alistGet m k <;> simp
  | cons p t ih =>
    intro m k
    simp only [List.foldl_cons]
    rw [ih, alistGet_mapPush, valuesFor_cons]
    by_cases hk : k = p.1
    · have hk' : p.1 = k := hk.symm
      rw [if_pos hk, if_pos hk']
      cases hg : alistGet m k with
      | none => subst hk; simp [hg, optJoin]
      | some u => subst hk; simp [hg, optJoin]
    · have hk' : ¬(p.1 = k) := fun h => hk h.symm
      rw [if_neg hk, if_neg hk']

theorem alistGet_fpIngest (l : List (String × ℚ)) (k : String) :
    alistGet (fpIngest l) k =
      if valuesFor l k = [] then none else some (valuesFor l k) := by
  rw [fpIngest, alistGet_foldl_mapPush]
  simp [alistGet, optJoin]

theorem fpAllValues_mapPush (m : List (String × List ℚ)) (k : String) (v : ℚ) :
    (fpAllValues (mapPush m k v)).Perm (fpAllValues m ++ [v]) := by
  induction m with
  | nil => simp [mapPush, fpAllValues]
  | cons e t ih =>
    by_cases he : e.1 = k
    · simp only [mapPush, if_pos he, fpAllValues]
      have h1 : (e.2 ++ [v]) ++ fpAllValues t = e.2 ++ ([v] ++ fpAllValues t) := by
        rw [List.append_assoc]
      have h2 : (e.2 ++ fpAllValues t) ++ [v] = e.2 ++ (fpAllValues t ++ [v]) := by
        rw [List.append_assoc]
      rw [h1, h2]
      exact List.Perm.append_left e.2 List.perm_append_comm
    · simp only [mapPush, if_neg he, fpAllValues]
      have h2 : (e.2 ++ fpAllValues t) ++ [v] = e.2 ++ (fpAllValues t ++ [v]) := by
        rw [List.append_assoc]
      rw [h2]
      exact List.Perm.append_left e.2 ih

theorem fpAllValues_foldl (l : List (String × ℚ)) :
    ∀ m : List (String × List ℚ),
      (fpAllValues (l.foldl (fun m p => mapPush m p.1 p.2) m)).Perm
        (fpAllValues m ++ l.map Prod.snd) := by
  induction l with
  | nil => intro m; simp
  | cons p t ih =>
    intro m
    simp only [List.foldl_cons, List.map_cons]
    refine (ih (mapPush m p.1 p.2)).trans ?_
    refine (List.Perm.append_right _ (fpAllValues_mapPush m p.1 p.2)).trans ?_
    have h : (fpAllValues m ++ [p.2]) ++ t.map Prod.snd
        = fpAllValues m ++ (p.2 :: t.map Prod.snd) := by simp
    rw [h]

theorem fpAllValues_fpIngest (l : List (String × ℚ)) :
    (fpAllValues (fpIngest l)).Perm (l.map Prod.snd) := by
  have h := fpAllValues_foldl l []
  simpa [fpAllValues] using h

theorem alistGet_mem_keys {β : Type} {m : List (String × β)} {k : String} {v : β}
    (h : alistGet m k = some v) : k ∈ m.map Prod.fst := by
  induction m with
  | nil => simp [alistGet] at h
  | cons e t ih =>
    by_cases he : e.1 = k
    · subst he; simp
    · simp only [alistGet, if_neg he] at h
      exact List.mem_cons_of_mem _ (ih h)

theorem mapPush_keys (m : List (String × List ℚ)) (k : String) (v : ℚ) :
    (mapPush m k v).map Prod.fst = m.map Prod.fst ∨
      (mapPush m k v).map Prod.fst = m.map Prod.fst ++ [k] := by
  induction m with
  | nil => right; simp [mapPush]
  | cons e t ih =>
    by_cases he : e.1 = k
    · left; simp [mapPush, he]
    · rcases ih with h | h
      · left; simp [mapPush, he, h]
      · right; simp [mapPush, he, h]

/-- Every group in the buffer map holds at least one sample. -/
def groupsNonempty (m : List (String × List ℚ)) : Prop :=
  ∀ k vs, alistGet m k = some vs → vs ≠ []

theorem groupsNonempty_mapPush {m : List (String × List ℚ)}
    (hm : groupsNonempty m) (k : String) (v : ℚ) :
    groupsNonempty (mapPush m k v) := by
  intro k' vs hget
  rw [alistGet_mapPush] at hget
  by_cases hk : k' = k
  · rw [if_pos hk] at hget
    cases hget
    simp
  · rw [if_neg hk] at hget
    exact hm k' vs hget

/-! ### Lemmas about the merge engine -/

theorem alistGet_wbSetRows :
    ∀ (s : List (String × List (List Cell))) (name : String)
      (rows : List (List Cell)) (n : String),
    alistGet (wbSetRows s name rows) n =
      if n = name then some rows else alistGet s n
  | [], name, rows, n => by
    by_cases h : n = name
    · subst h; simp [wbSetRows, alistGet]
    · have h2 : ¬(name = n) := fun hh => h hh.symm
      simp [wbSetRows, alistGet, h, h2]
  | e :: t, name, rows, n => by
    by_cases he : e.1 = name
    · subst he
      by_cases h : n = e.1
      · subst h; simp [wbSetRows, alistGet]
      · have h2 : ¬(e.1 = n) := fun hh => h hh.symm
        simp [wbSetRows, alistGet, h, h2]
    · by_cases h : e.1 = n
      · subst h
        have h3 : ¬(e.1 = name) := he
        simp [wbSetRows, alistGet, he, h3]
      · simp [wbSetRows, alistGet, he, h, alistGet_wbSetRows t name rows n]

theorem insertSorted_perm (x : String) (l : List String) :
    (insertSorted x l).Perm (x :: l) := by
  induction l with
  | nil => simp [insertSorted]
  | cons y t ih =>
    simp only [insertSorted]
    by_cases h : strLe x y
    · rw [if_pos h]
    · rw [if_neg h]
      exact (ih.cons y).trans (List.Perm.swap x y t)

theorem sortStrings_perm (l : List String) : (sortStrings l).Perm l := by
  induction l with
  | nil => simp [sortStrings]
  | cons x t ih =>
    exact (insertSorted_perm x (sortStrings t)).trans (ih.cons x)

theorem sortStrings_nodup {l : List String} (h : l.Nodup) :
    (sortStrings l).Nodup := ((sortStrings_perm l).nodup_iff).mpr h

theorem sortStrings_mem {l : List String} {x : String} :
    x ∈ sortStrings l ↔ x ∈ l := (sortStrings_perm l).mem_iff

theorem appendNewMacs_eq_append :
    ∀ (ms : List String) (hs : List Cell), ms.Nodup →
      (∀ m ∈ ms, Cell.s m ∉ hs) →
      appendNewMacs hs ms = hs ++ ms.map Cell.s
  | [], hs, _, _ => by simp [appendNewMacs]
  | m :: t, hs, hnd, hmem => by
    have hm : Cell.s m ∉ hs := hmem m (List.mem_cons_self m t)
    have hnd' : t.Nodup := (List.nodup_cons.mp hnd).2
    have hmt : m ∉ t := (List.nodup_cons.mp hnd).1
    have hmem' : ∀ x ∈ t, Cell.s x ∉ hs ++ [Cell.s m] := by
      intro x hx
      simp only [List.mem_append, List.mem_singleton]
      rintro (hin | heq)
      · exact hmem x (List.mem_cons_of_mem m hx) hin
      · cases heq
        exact hmt hx
    simp only [appendNewMacs, List.foldl_cons, if_neg hm]
    have := appendNewMacs_eq_append t (hs ++ [Cell.s m]) hnd' hmem'
    simp only [appendNewMacs] at this
    rw [this, List.append_assoc]
    simp

theorem appendNewMacs_exists_append (ms : List String) :
    ∀ hs : List Cell, ∃ t, appendNewMacs hs ms = hs ++ t := by
  induction ms with
  | nil => intro hs; exact ⟨[], by simp [appendNewMacs]⟩
  | cons m t ih =>
    intro hs
    by_cases hm : Cell.s m ∈ hs
    · rcases ih hs with ⟨u, hu⟩
      refine ⟨u, ?_⟩
      simp only [appendNewMacs, List.foldl_cons, if_pos hm]
      simpa [appendNewMacs] using hu
    · rcases ih (hs ++ [Cell.s m]) with ⟨u, hu⟩
      refine ⟨Cell.s m :: u, ?_⟩
      simp only [appendNewMacs, List.foldl_cons, if_neg hm]
      simp only [appendNewMacs] at hu
      rw [hu, List.append_assoc]
      simp

theorem padTo_of_length (r : List Cell) : padTo r.length r = r := by
  simp [padTo]

theorem fpLoadRows_pair (a b : List Cell) (h : a.length = b.length) :
    fpLoadRows [a, b] = [a, b] := by
  simp only [fpLoadRows, List.isEmpty, rectangularize, List.map_cons,
    List.map_nil, List.foldr]
  have hmax : max a.length (max b.length 0) = a.length := by
    rw [h]; simp
  rw [hmax]
  rw [padTo_of_length]
  have hb : padTo a.length b = b := by
    rw [h]; exact padTo_of_length b
  rw [hb]
  simp

theorem fpNewRow_length (locId : String) (x y z : JSNum) (omin omax : ℚ)
    (total : ℕ) (readings : List (String × ℚ)) (macs : List String) :
    (fpNewRow locId x y z omin omax total readings macs).length =
      7 + macs.length := by
  simp [fpNewRow]
  omega


theorem getLast?_snoc {α : Type} (l : List α) (x : α) :
    (l ++ [x]).getLast? = some x := by
  rw [List.getLast?_append_cons]
  rfl

theorem fpBackfill_skip {H : List Cell} (data : List (List Cell))
    (h0 : (firstBaseIdx H).isSome)
    (hmin : Cell.s "Min RSSI (dBm)" ∈ H) :
    fpBackfill H data = (H, data) := by
  obtain ⟨i, hi⟩ := Option.isSome_iff_exists.mp h0
  simp [fpBackfill, hi, hmin]

theorem fpWrite_absent (locId : String) (x y z : JSNum) (omin omax : ℚ)
    (total : ℕ) (readings : List (String × ℚ)) (S : List String)
    (hnd : (sortStrings S).Nodup)
    (hfr : ∀ m ∈ sortStrings S, Cell.s m ∉ fpFreshHeaders.map Cell.s) :
    fpWriteToExcel .absent locId x y z omin omax total readings S =
      (false, ⟨[("Fingerprint Data",
        [fpFreshHeaders.map Cell.s ++ (sortStrings S).map Cell.s,
         fpNewRow locId x y z omin omax total readings (sortStrings S)])]⟩) := by
  simp only [fpWriteToExcel, fpLoadPhase]
  rw [appendNewMacs_eq_append _ _ hnd hfr]
  rfl

theorem fpWrite_second (H R : List Cell) (Ht : List Cell)
    (hH : H = Cell.s "Location ID" :: Ht)
    (hlen : H.length = R.length)
    (hmin : Cell.s "Min RSSI (dBm)" ∈ H)
    (locId : String) (x y z : JSNum) (omin omax : ℚ) (total : ℕ)
    (readings : List (String × ℚ)) (S : List String)
    (hnd : (sortStrings S).Nodup)
    (hmem : ∀ m ∈ sortStrings S, Cell.s m ∉ H) :
    fpWriteToExcel (.wb ⟨[("Fingerprint Data", [H, R])]⟩)
        locId x y z omin omax total readings S =
      (false, ⟨[("Fingerprint Data",
        [H ++ (sortStrings S).map Cell.s, R,
         fpNewRow locId x y z omin omax total readings (sortStrings S)])]⟩) := by
  subst hH
  have hget : alistGet
      (Workbook.mk [("Fingerprint Data", [Cell.s "Location ID" :: Ht, R])]).sheets
      (fpLocate ⟨[("Fingerprint Data", [Cell.s "Location ID" :: Ht, R])]⟩)
      = some [Cell.s "Location ID" :: Ht, R] := rfl
  have hbase : firstBaseIdx (Cell.s "Location ID" :: Ht) = some 0 := rfl
  simp only [fpWriteToExcel, fpLoadPhase, hget]
  rw [fpLoadRows_pair _ _ hlen]
  simp only [List.isEmpty_cons, List.head?_cons, Option.getD_some, Bool.or_self]
  rw [if_neg Bool.false_ne_true]
  rw [fpBackfill_skip [Cell.s "Location ID" :: Ht, R] (by rw [hbase]; rfl) hmin]
  rw [appendNewMacs_eq_append _ _ hnd hmem]
  simp [wbSet, wbSetRows, List.set]

theorem fpLoadPhase_located {w : Workbook} {rs : List (List Cell)}
    (hrs : alistGet w.sheets (fpLocate w) = some rs) :
    (fpLoadPhase (.wb w)).1 = false ∧ (fpLoadPhase (.wb w)).2.1 = w := by
  simp only [fpLoadPhase, hrs]
  by_cases hcond :
      ((fpLoadRows rs).isEmpty || (((fpLoadRows rs).head?).getD []).isEmpty) = true
  · rw [if_pos hcond]
    exact ⟨rfl, rfl⟩
  · rw [if_neg hcond]
    exact ⟨rfl, rfl⟩

theorem fpWrite_located {w : Workbook} {rs : List (List Cell)}
    (hrs : alistGet w.sheets (fpLocate w) = some rs)
    (locId : String) (x y z : JSNum) (omin omax : ℚ) (total : ℕ)
    (readings : List (String × ℚ)) (S : List String) :
    ∃ pre, fpWriteToExcel (.wb w) locId x y z omin omax total readings S =
      (false, wbSet w "Fingerprint Data"
        (pre ++ [fpNewRow locId x y z omin omax total readings (sortStrings S)])) := by
  obtain ⟨h1, h2⟩ := fpLoadPhase_located hrs
  refine ⟨(fpLoadPhase (.wb w)).2.2.2.set 0
    (appendNewMacs (fpLoadPhase (.wb w)).2.2.1 (sortStrings S)), ?_⟩
  simp only [fpWriteToExcel]
  rw [h1, h2]

theorem gwWrite_located {w : Workbook} {rs : List (List Cell)}
    (hrs : (gwLocate w).bind (alistGet w.sheets) = some rs)
    (mac : String) (dist : JSNum) (rssi : ℚ) (ts : String) :
    ∃ pre, gwWriteToExcel (.wb w) mac dist rssi ts =
      .ok (wbSet w "Calibration Data" (pre ++ [gwNewRow mac dist rssi ts])) := by
  simp only [gwWriteToExcel, hrs]
  exact ⟨_, rfl⟩

/-! ### Lemmas about message handling -/

theorem fpHandleMessage_accept (st : FpState) (macRaw : String)
    (entries : List (Option ℚ)) (hmr : ¬(macRaw = "")) :
    fpHandleMessage true st (some ⟨some macRaw, some entries⟩) =
      ⟨entries.foldl
        (fun recs e => match e with
          | some v => mapPush recs (strUpper macRaw) v
          | none => recs) st.recordings,
       setAdd st.gatewayMacs (strUpper macRaw)⟩ := by
  simp [fpHandleMessage, hmr]

theorem setAdd_mem_self (s : List String) (x : String) : x ∈ setAdd s x := by
  by_cases h : x ∈ s <;> simp [setAdd, h]

theorem setAdd_mem_of_mem {s : List String} {y : String} (x : String)
    (h : y ∈ s) : y ∈ setAdd s x := by
  by_cases hx : x ∈ s <;> simp [setAdd, hx, h]

theorem alistGet_entriesFold (entries : List (Option ℚ)) (macU : String) :
    ∀ (m : List (String × List ℚ)) (k : String), ¬(k = macU) →
      alistGet (entries.foldl
        (fun recs e => match e with
          | some v => mapPush recs macU v
          | none => recs) m) k = alistGet m k := by
  induction entries with
  | nil => intro m k _; rfl
  | cons e t ih =>
    intro m k hk
    cases e with
    | none => exact ih m k hk
    | some v =>
      simp only [List.foldl_cons]
      rw [ih (mapPush m macU v) k hk, alistGet_mapPush, if_neg hk]

theorem entriesFold_none (entries : List (Option ℚ)) (macU : String)
    (hall : ∀ e ∈ entries, e = none) (m : List (String × List ℚ)) :
    entries.foldl
      (fun recs e => match e with
        | some v => mapPush recs macU v
        | none => recs) m = m := by
  induction entries with
  | nil => rfl
  | cons e t ih =>
    have he : e = none := hall e (List.mem_cons_self e t)
    subst he
    exact ih (fun x hx => hall x (List.mem_cons_of_mem _ hx))

theorem groupsNonempty_entriesFold (entries : List (Option ℚ)) (macU : String) :
    ∀ m, groupsNonempty m →
      groupsNonempty (entries.foldl
        (fun recs e => match e with
          | some v => mapPush recs macU v
          | none => recs) m) := by
  induction entries with
  | nil => intro m hm; exact hm
  | cons e t ih =>
    intro m hm
    cases e with
    | none => exact ih m hm
    | some v => exact ih (mapPush m macU v) (groupsNonempty_mapPush hm macU v)

theorem fpHandleMessage_groupsNonempty (b : Bool) (st : FpState) (msg : Msg)
    (h : groupsNonempty st.recordings) :
    groupsNonempty (fpHandleMessage b st msg).recordings := by
  cases b with
  | false => exact h
  | true =>
    cases msg with
    | none => exact h
    | some p =>
      obtain ⟨dm, dd⟩ := p
      cases dm with
      | none => exact h
      | some macRaw =>
        by_cases hmr : macRaw = ""
        · simp only [fpHandleMessage, if_pos hmr]
          split
          · exact h
          · exact h
        · cases dd with
          | none =>
            simp only [fpHandleMessage, if_neg hmr]
            exact h
          | some entries =>
            rw [fpHandleMessage_accept st macRaw entries hmr]
            exact groupsNonempty_entriesFold entries (strUpper macRaw)
              st.recordings h

theorem fpRun_groupsNonempty (msgs : List Msg) :
    groupsNonempty (fpRun msgs).recordings := by
  have hgen : ∀ (st : FpState), groupsNonempty st.recordings →
      groupsNonempty ((msgs.foldl (fpHandleMessage true) st).recordings) := by
    induction msgs with
    | nil => intro st h; exact h
    | cons m t ih =>
      intro st h
      exact ih (fpHandleMessage true st m)
        (fpHandleMessage_groupsNonempty true st m h)
  exact hgen ⟨[], []⟩ (fun k vs hk => by simp [alistGet] at hk)

/-- Invariant of the fingerprint window state: every source that owns a group
in the sample buffer is in the observed-gateway set. -/
def obsInv (st : FpState) : Prop :=
  ∀ mac vs, alistGet st.recordings mac = some vs → mac ∈ st.gatewayMacs

theorem fpHandleMessage_obsInv (b : Bool) (st : FpState) (msg : Msg)
    (h : obsInv st) : obsInv (fpHandleMessage b st msg) := by
  cases b with
  | false => exact h
  | true =>
    cases msg with
    | none => exact h
    | some p =>
      obtain ⟨dm, dd⟩ := p
      cases dm with
      | none => exact h
      | some macRaw =>
        by_cases hmr : macRaw = ""
        · simp only [fpHandleMessage, if_pos hmr]
          split
          · exact h
          · exact h
        · cases dd with
          | none =>
            simp only [fpHandleMessage, if_neg hmr]
            exact h
          | some entries =>
            rw [fpHandleMessage_accept st macRaw entries hmr]
            intro mac vs hget
            by_cases hk : mac = strUpper macRaw
            · subst hk
              exact setAdd_mem_self st.gatewayMacs (strUpper macRaw)
            · rw [alistGet_entriesFold entries (strUpper macRaw)
                st.recordings mac hk] at hget
              exact setAdd_mem_of_mem _ (h mac vs hget)

theorem fpRun_obsInv (msgs : List Msg) : obsInv (fpRun msgs) := by
  have hgen : ∀ (st : FpState), obsInv st →
      obsInv (msgs.foldl (fpHandleMessage true) st) := by
    induction msgs with
    | nil => intro st h; exact h
    | cons m t ih =>
      intro st h
      exact ih (fpHandleMessage true st m) (fpHandleMessage_obsInv true st m h)
  exact hgen ⟨[], []⟩ (fun mac vs hk => by simp [alistGet] at hk)

/-! ### Claim C6 -/

/-- C6: for every source whose window buffer holds `N ≥ 1` samples, the
reducer (the per-group `{samples, avg, min, max}` computed identically by
both tools) reports `sampleCount = N`, a mean that is the equally-weighted
arithmetic mean (`avg * N = Σ values`), and `min ≤ mean ≤ max`; moreover
every group that exists in the fingerprint tool's window buffer indeed holds
at least one sample, so the `N ≥ 1` premise covers all groups. -/
theorem reducer_stats_bounds (vs : List ℚ) (hne : vs ≠ []) :
    (mkStat vs).samples = vs.length
    ∧ (mkStat vs).avg * (vs.length : ℚ) = listSum vs
    ∧ (mkStat vs).min ≤ (mkStat vs).avg
    ∧ (mkStat vs).avg ≤ (mkStat vs).max
    ∧ (∀ (msgs : List Msg) (mac : String) (gvs : List ℚ),
        alistGet (fpRun msgs).recordings mac = some gvs → gvs ≠ []) := by
  have hlen0 : (0 : ℚ) < (vs.length : ℚ) := by
    exact_mod_cast List.length_pos.mpr hne
  have hlenne : (vs.length : ℚ) ≠ 0 := ne_of_gt hlen0
  refine ⟨rfl, ?_, ?_, ?_, ?_⟩
  · simp only [mkStat]
    exact div_mul_cancel₀ (listSum vs) hlenne
  · simp only [mkStat]
    rw [le_div_iff₀ hlen0]
    exact mul_length_le_listSum (fun x hx => listMin_le hx)
  · simp only [mkStat]
    rw [div_le_iff₀ hlen0]
    exact listSum_le_mul_length (fun x hx => le_listMax hx)
  · intro msgs mac gvs hget
    exact fpRun_groupsNonempty msgs mac gvs hget

/-- C6 witness. -/
theorem reducer_stats_bounds_witness :
    (mkStat [1, 3]).samples = ([1, 3] : List ℚ).length
    ∧ (mkStat [1, 3]).avg * (([1, 3] : List ℚ).length : ℚ) = listSum [1, 3]
    ∧ (mkStat [1, 3]).min ≤ (mkStat [1, 3]).avg
    ∧ (mkStat [1, 3]).avg ≤ (mkStat [1, 3]).max
    ∧ (∀ (msgs : List Msg) (mac : String) (gvs : List ℚ),
        alistGet (fpRun msgs).recordings mac = some gvs → gvs ≠ []) :=
  reducer_stats_bounds [1, 3] (by simp)

/-! ### Claim C8 -/

/-- C8: the reducer is deterministic and order-independent. For two windows
whose buffers received the same multiset of `(mac, rssi)` samples in possibly
different arrival orders, the per-source statistics map, the overall summary
(total count, global min, global max as guarded in the source), and the
single-source statistics of the calibration tool are identical. -/
theorem reducer_perm_invariant (l1 l2 : List (String × ℚ)) (hp : l1.Perm l2) :
    (∀ mac, (alistGet (fpIngest l1) mac).map mkStat
      = (alistGet (fpIngest l2) mac).map mkStat)
    ∧ (fpAllValues (fpIngest l1)).length = (fpAllValues (fpIngest l2)).length
    ∧ listMin (fpAllValues (fpIngest l1)) = listMin (fpAllValues (fpIngest l2))
    ∧ listMax (fpAllValues (fpIngest l1)) = listMax (fpAllValues (fpIngest l2))
    ∧ (∀ g1 g2 : List ℚ, g1.Perm g2 → mkStat g1 = mkStat g2) := by
  have hall : (fpAllValues (fpIngest l1)).Perm (fpAllValues (fpIngest l2)) :=
    ((fpAllValues_fpIngest l1).trans (hp.map Prod.snd)).trans
      (fpAllValues_fpIngest l2).symm
  refine ⟨?_, hall.length_eq, listMin_perm hall, listMax_perm hall,
    fun g1 g2 hg => mkStat_perm hg⟩
  intro mac
  have hv : (valuesFor l1 mac).Perm (valuesFor l2 mac) := hp.filterMap _
  rw [alistGet_fpIngest, alistGet_fpIngest]
  by_cases h1 : valuesFor l1 mac = []
  · have h2 : valuesFor l2 mac = [] := by
      rw [h1] at hv
      exact (List.Perm.eq_nil hv.symm)
    rw [if_pos h1, if_pos h2]
  · have h2 : ¬(valuesFor l2 mac = []) := by
      intro hc
      rw [hc] at hv
      exact h1 (List.Perm.eq_nil hv)
    rw [if_neg h1, if_neg h2]
    simp [mkStat_perm hv]

/-- C8 witness. -/
theorem reducer_perm_invariant_witness :
    (alistGet (fpIngest [("AA", 1), ("BB", 2), ("AA", 3)]) "AA").map mkStat
      = (alistGet (fpIngest [("AA", 3), ("AA", 1), ("BB", 2)]) "AA").map mkStat :=
  (reducer_perm_invariant [("AA", 1), ("BB", 2), ("AA", 3)]
    [("AA", 3), ("AA", 1), ("BB", 2)] (by decide)).1 "AA"

/-! ### Claim C9 -/

/-- C9: during a survey window, a well-formed message (truthy string gateway
identity, array `data`) adds its upper-cased gateway identity to the observed
set before its entries are examined — so even a message with zero numeric
strength entries records its gateway as observed while contributing no
samples — and consequently, after any message sequence from a cleared window,
every source owning samples in the buffer is in the observed-source set. -/
theorem observed_sources_superset :
    (∀ (st : FpState) (macRaw : String) (entries : List (Option ℚ)),
      ¬(macRaw = "") →
      strUpper macRaw ∈
        (fpHandleMessage true st (some ⟨some macRaw, some entries⟩)).gatewayMacs)
    ∧ (∀ (st : FpState) (macRaw : String) (entries : List (Option ℚ)),
      ¬(macRaw = "") → (∀ e ∈ entries, e = none) →
      (fpHandleMessage true st (some ⟨some macRaw, some entries⟩)).recordings
        = st.recordings)
    ∧ (∀ (msgs : List Msg) (mac : String) (vs : List ℚ),
      alistGet (fpRun msgs).recordings mac = some vs →
      mac ∈ (fpRun msgs).gatewayMacs) := by
  refine ⟨?_, ?_, ?_⟩
  · intro st macRaw entries hmr
    rw [fpHandleMessage_accept st macRaw entries hmr]
    exact setAdd_mem_self st.gatewayMacs (strUpper macRaw)
  · intro st macRaw entries hmr hall
    rw [fpHandleMessage_accept st macRaw entries hmr]
    exact entriesFold_none entries (strUpper macRaw) hall st.recordings
  · intro msgs mac vs hget
    exact fpRun_obsInv msgs mac vs hget

/-- C9 witness: a message whose `data` array holds no numeric entry still
records gateway `AB:CD` as observed, and the superset invariant holds on a
concrete run. -/
theorem observed_sources_superset_witness :
    strUpper "ab:cd" ∈
      (fpHandleMessage true ⟨[], []⟩ (some ⟨some "ab:cd", some [none]⟩)).gatewayMacs
    ∧ (fpHandleMessage true ⟨[], []⟩ (some ⟨some "ab:cd", some [none]⟩)).recordings
      = (⟨[], []⟩ : FpState).recordings
    ∧ ("EF" ∈ (fpRun [some ⟨some "ef", some [some (-60)]⟩]).gatewayMacs) :=
  ⟨observed_sources_superset.1 ⟨[], []⟩ "ab:cd" [none] (by decide),
   observed_sources_superset.2.1 ⟨[], []⟩ "ab:cd" [none] (by decide)
     (by intro e he; simpa using he),
   observed_sources_superset.2.2 [some ⟨some "ef", some [some (-60)]⟩] "EF" [-60]
     (by decide)⟩

/-! ### Claim C10 -/

/-- C10: in the survey tool, a gateway whose rounded mean is exactly `0` gets
the empty string in the appended row (`rssiReadings[mac] || ''` treats the
number `0` as falsy), which is the very value an observed gateway without a
reading gets — the two cases are indistinguishable in the persisted row. The
last conjunct places the empty cell at the gateway's own position inside the
appended row. -/
theorem fp_zero_mean_cell_empty (recs : List (String × List ℚ)) (m1 m2 : String)
    (h1 : alistGet (fpReadings recs) m1 = some 0)
    (h2 : alistGet (fpReadings recs) m2 = none)
    (locId : String) (x y z : JSNum) (omin omax : ℚ) (total : ℕ)
    (l1 l2 : List String) :
    gatewayCell (fpReadings recs) m1 = Cell.s ""
    ∧ gatewayCell (fpReadings recs) m1 = gatewayCell (fpReadings recs) m2
    ∧ (fpNewRow locId x y z omin omax total (fpReadings recs)
        (l1 ++ m1 :: l2))[7 + l1.length]? = some (Cell.s "") := by
  have hc1 : gatewayCell (fpReadings recs) m1 = Cell.s "" := by
    simp [gatewayCell, h1]
  have hc2 : gatewayCell (fpReadings recs) m2 = Cell.s "" := by
    simp [gatewayCell, h2]
  refine ⟨hc1, by rw [hc1, hc2], ?_⟩
  have hlen : ([Cell.s locId, Cell.n x, Cell.n y, Cell.n z,
      Cell.q (jsRound2 omin), Cell.q (jsRound2 omax),
      Cell.q (total : ℚ)] : List Cell).length = 7 := rfl
  rw [fpNewRow, List.getElem?_append_right (by rw [hlen]; omega)]
  rw [hlen]
  have hidx : 7 + l1.length - 7 = l1.length := by omega
  rw [hidx, List.getElem?_map]
  rw [List.getElem?_append_right (by simp)]
  simp [hc1]

/-- C10 witness: samples `5` and `-5` average to exactly `0`, and the stored
cell equals the cell of unobserved gateway `BB`. -/
theorem fp_zero_mean_cell_empty_witness :
    gatewayCell (fpReadings [("AA", [5, -5])]) "AA" = Cell.s ""
    ∧ gatewayCell (fpReadings [("AA", [5, -5])]) "AA"
      = gatewayCell (fpReadings [("AA", [5, -5])]) "BB"
    ∧ (fpNewRow "p" (.fin 1) (.fin 2) (.fin 0) 0 0 2
        (fpReadings [("AA", [5, -5])]) ([] ++ "AA" :: ["BB"]))[7 + ([] : List String).length]?
      = some (Cell.s "") := by
  have h1 : alistGet (fpReadings [("AA", [5, -5])]) "AA" = some 0 := by
    have hz : jsRound2 (listSum [5, -5] / 2) = 0 := by
      have hs : listSum [5, -5] = 0 := by
        simp [listSum]
      rw [hs]
      simp [jsRound2]
    simp [fpReadings, alistGet, hz]
  have h2 : alistGet (fpReadings [("AA", [5, -5])]) "BB" = none := by
    simp [fpReadings, alistGet]
  exact fp_zero_mean_cell_empty [("AA", [5, -5])] "AA" "BB" h1 h2
    "p" (.fin 1) (.fin 2) (.fin 0) 0 0 2 [] ["BB"]

/-! ### Claim C4 -/

/-- C4: when a window closes with zero samples collected, both tools report
the distinct no-data outcome, the merge engine (`writeToExcel`) is never
reached, no row is appended, and the cycle leaves the store value — hence the
file — byte-for-byte unchanged. -/
theorem empty_window_preserves_store
    (locIn : String) (xIn yIn : JSNum) (zIn : Option JSNum) (msgs : List Msg)
    (store : Store)
    (hval : (fpValidate locIn xIn yIn zIn).isSome)
    (hemp : (fpRun msgs).recordings = [])
    (macIn : String) (dIn : JSNum) (msgsG : List Msg) (ts : String)
    (storeG : Store) (c : GwCtx)
    (hvalG : gwValidate macIn dIn = some c)
    (hempG : gwRun c.mac msgsG = []) :
    fpCycle locIn xIn yIn zIn msgs store = (.noData, store)
    ∧ gwCycle macIn dIn msgsG ts storeG = (.noData, storeG) := by
  constructor
  · obtain ⟨ctx, hctx⟩ := Option.isSome_iff_exists.mp hval
    simp [fpCycle, hctx, hemp]
  · simp [gwCycle, hvalG, hempG]

/-- C4 witness: a window in which only malformed or sample-free messages
arrive appends nothing and leaves the store untouched. -/
theorem empty_window_preserves_store_witness :
    fpCycle "p1" (.fin 1) (.fin 2) none
        [none, some ⟨some "aa", some [none]⟩, some ⟨none, some [some 1]⟩] .absent
      = (.noData, .absent)
    ∧ gwCycle "AA:BB" (.fin 2)
        [some ⟨some "other", some [some (-60)]⟩] "t0" .absent
      = (.noData, .absent) :=
  empty_window_preserves_store "p1" (.fin 1) (.fin 2) none
    [none, some ⟨some "aa", some [none]⟩, some ⟨none, some [some 1]⟩] .absent
    (by decide) (by decide)
    "AA:BB" (.fin 2) [some ⟨some "other", some [some (-60)]⟩] "t0" .absent
    ⟨"AA:BB", .fin 2⟩ (by decide) (by decide)

/-! ### Claim C5 -/

/-- C5 counterexample: arming succeeds on operator input whose parsed
distance (resp. X coordinate) is `+Infinity` — `parseFloat('Infinity')` —
which is not a finite number, so "arming succeeds only with a positive
finite distance / finite coordinates" is false of the code: the checks are
only `isNaN(d) || d <= 0` resp. `isNaN(x)`. -/
theorem gw_arming_accepts_infinite_distance :
    (gwValidate "AA:BB:CC:DD:EE:FF" (JSNum.inf true)).isSome = true
    ∧ (JSNum.inf true).isFinite = false
    ∧ (fpValidate "p1" (JSNum.inf true) (JSNum.fin 0) none).isSome = true := by
  decide

/-- C5 amended: arming succeeds exactly when the identifier is non-empty
after trimming and the parsed numbers pass the JavaScript tests actually in
the code — distance not NaN and not `<= 0` (so `+Infinity` is accepted),
coordinates not NaN (so `±Infinity` is accepted), Z defaulting to `0` when
blank — and every input failing these checks skips the cycle before arming:
no window opens, no statistics are produced, no merge is attempted, and the
store is untouched. -/
theorem arming_validation_characterization :
    (∀ (macIn : String) (dIn : JSNum),
      (gwValidate macIn dIn).isSome ↔
        (¬(strTrim macIn = "") ∧ dIn.isNaN = false ∧ dIn.le0 = false))
    ∧ (∀ (locIn : String) (xIn yIn : JSNum) (zIn : Option JSNum),
      (fpValidate locIn xIn yIn zIn).isSome ↔
        (¬(strTrim locIn = "") ∧ xIn.isNaN = false ∧ yIn.isNaN = false
          ∧ (zIn.getD (JSNum.fin 0)).isNaN = false))
    ∧ (∀ (macIn : String) (dIn : JSNum) (msgs : List Msg) (ts : String)
        (store : Store), gwValidate macIn dIn = none →
      gwCycle macIn dIn msgs ts store = (.skipped, store))
    ∧ (∀ (locIn : String) (xIn yIn : JSNum) (zIn : Option JSNum)
        (msgs : List Msg) (store : Store), fpValidate locIn xIn yIn zIn = none →
      fpCycle locIn xIn yIn zIn msgs store = (.skipped, store)) := by
  refine ⟨?_, ?_, ?_, ?_⟩
  · intro macIn dIn
    by_cases h1 : strTrim macIn = "" <;>
      by_cases h2 : dIn.isNaN <;>
        by_cases h3 : dIn.le0 <;>
          simp [gwValidate, h1, h2, h3]
  · intro locIn xIn yIn zIn
    by_cases h1 : strTrim locIn = "" <;>
      by_cases h2 : xIn.isNaN <;>
        by_cases h3 : yIn.isNaN <;>
          by_cases h4 : (zIn.getD (JSNum.fin 0)).isNaN <;>
            simp [fpValidate, h1, h2, h3, h4]
  · intro macIn dIn msgs ts store hnone
    simp [gwCycle, hnone]
  · intro locIn xIn yIn zIn msgs store hnone
    simp [fpCycle, hnone]

/-- C5 amended witness. -/
theorem arming_validation_characterization_witness :
    ((gwValidate "AA:BB" (JSNum.fin 2)).isSome ↔
      (¬(strTrim "AA:BB" = "") ∧ (JSNum.fin 2).isNaN = false
        ∧ (JSNum.fin 2).le0 = false))
    ∧ gwCycle "" (JSNum.fin 1) [] "t0" .absent = (.skipped, .absent)
    ∧ fpCycle "p" JSNum.nan (JSNum.fin 0) none [] .absent
      = (.skipped, .absent) :=
  ⟨arming_validation_characterization.1 "AA:BB" (JSNum.fin 2),
   arming_validation_characterization.2.2.1 "" (JSNum.fin 1) [] "t0" .absent
     (by decide),
   arming_validation_characterization.2.2.2 "p" JSNum.nan (JSNum.fin 0) none []
     .absent (by decide)⟩

/-! ### Claim C3 -/

/-- C3 counterexample: on an unparsable store the calibration tool does not
fall back — `GatewayCalibrationTool.writeToExcel` has no try/catch around
`XLSX.readFile`, so the error propagates and the cycle aborts instead of
completing the write. -/
theorem gw_corrupt_store_aborts_counterexample :
    gwWriteToExcel .corrupt "AA:BB:CC:DD:EE:FF" (.fin 2) (-60) "t0"
      = .error "XLSX.readFile threw: unparsable store"
    ∧ gwCycle "AA:BB:CC:DD:EE:FF" (.fin 2)
        [some ⟨some "aa:bb:cc:dd:ee:ff", some [some (-60)]⟩] "t0" .corrupt
      = (.aborted, .corrupt) :=
  ⟨rfl, rfl⟩

/-- C3 amended: only the fingerprint tool recovers from an unparsable store:
it prints the warning, starts a fresh table — with just the four base columns
of the `catch` branch, not the full seven-column fresh header — and completes
the cycle's write with the new row appended; the calibration tool instead
propagates the parse error and its cycle aborts. -/
theorem corrupt_store_fallback_split
    (locId : String) (x y z : JSNum) (omin omax : ℚ) (total : ℕ)
    (readings : List (String × ℚ)) (S : List String)
    (mac : String) (dist : JSNum) (rssi : ℚ) (ts : String) :
    (fpWriteToExcel .corrupt locId x y z omin omax total readings S).1 = true
    ∧ (∃ t, fpSchema
        (fpWriteToExcel .corrupt locId x y z omin omax total readings S).2
        = fpCatchHeaders.map Cell.s ++ t)
    ∧ (∃ d, alistGet
        (fpWriteToExcel .corrupt locId x y z omin omax total readings S).2.sheets
        "Fingerprint Data" = some d
        ∧ d.getLast? = some (fpNewRow locId x y z omin omax total readings
            (sortStrings S)))
    ∧ (∃ e, gwWriteToExcel .corrupt mac dist rssi ts = .error e) := by
  refine ⟨rfl, ?_, ?_, ⟨_, rfl⟩⟩
  · obtain ⟨t, ht⟩ := appendNewMacs_exists_append (sortStrings S)
      (fpCatchHeaders.map Cell.s)
    refine ⟨t, ?_⟩
    simp only [fpWriteToExcel, fpLoadPhase, fpSchema, wbSet, wbSetRows,
      emptyWb, List.set, alistGet]
    simp [ht]
  · refine ⟨_, rfl, ?_⟩
    simp only [fpWriteToExcel, fpLoadPhase, wbSet, wbSetRows, emptyWb,
      List.set]
    rw [show ([appendNewMacs (fpCatchHeaders.map Cell.s) (sortStrings S)]
        ++ [fpNewRow locId x y z omin omax total readings (sortStrings S)])
      = [appendNewMacs (fpCatchHeaders.map Cell.s) (sortStrings S),
         fpNewRow locId x y z omin omax total readings (sortStrings S)]
      from rfl]
    rfl

/-! ### Claim C7 -/

/-- C7 counterexample: with a store whose only sheet is `Sheet1` (matching
neither keyword), the fingerprint merge reads `Sheet1` as the target but
writes the merged table under the fixed name `'Fingerprint Data'`: the
located target sheet is left with its old data (not rewritten in place), and
the old rows now persist alongside the merged copy — contradicting "the
target sheet contains the reconciled header plus prior rows plus the
appended row … with no duplicate copy of the target sheet's old data". -/
theorem fp_merge_leaves_duplicate_sheet_counterexample :
    (let wb := (fpWriteToExcel (.wb ⟨[("Sheet1", [[Cell.s "old"]])]⟩)
        "p" (.fin 1) (.fin 2) (.fin 0) (-71) (-71) 1 [("X1", -71)] ["X1"]).2
     alistGet wb.sheets "Sheet1" = some [[Cell.s "old"]]
     ∧ (alistGet wb.sheets "Fingerprint Data").isSome = true
     ∧ wb.sheets.length = 2) := by
  decide

/-- C7 amended: each merge writes the reconciled table under the tool's
*fixed* output sheet name (`'Fingerprint Data'` / `'Calibration Data'`),
appending the new row as the last row of that sheet, and leaves every sheet
with a different name unchanged. Only when the located source sheet already
bears the fixed name is it replaced in place; a located sheet with another
name keeps its old data, so the old rows are then duplicated in the store. -/
theorem merge_writes_fixed_sheet_frame
    {w : Workbook} {rs : List (List Cell)}
    (hrs : alistGet w.sheets (fpLocate w) = some rs)
    (locId : String) (x y z : JSNum) (omin omax : ℚ) (total : ℕ)
    (readings : List (String × ℚ)) (S : List String)
    {wG : Workbook} {rsG : List (List Cell)}
    (hrsG : (gwLocate wG).bind (alistGet wG.sheets) = some rsG)
    (mac : String) (dist : JSNum) (rssi : ℚ) (ts : String) :
    (∀ n, ¬(n = "Fingerprint Data") →
      alistGet (fpWriteToExcel (.wb w) locId x y z omin omax total
        readings S).2.sheets n = alistGet w.sheets n)
    ∧ (∃ d, alistGet (fpWriteToExcel (.wb w) locId x y z omin omax total
        readings S).2.sheets "Fingerprint Data" = some d
        ∧ d.getLast? = some (fpNewRow locId x y z omin omax total readings
            (sortStrings S)))
    ∧ (∀ wb2, gwWriteToExcel (.wb wG) mac dist rssi ts = .ok wb2 →
      (∀ n, ¬(n = "Calibration Data") →
        alistGet wb2.sheets n = alistGet wG.sheets n)
      ∧ ∃ d, alistGet wb2.sheets "Calibration Data" = some d
        ∧ d.getLast? = some (gwNewRow mac dist rssi ts)) := by
  obtain ⟨pre, hpre⟩ := fpWrite_located hrs locId x y z omin omax total
    readings S
  obtain ⟨preG, hpreG⟩ := gwWrite_located hrsG mac dist rssi ts
  refine ⟨?_, ?_, ?_⟩
  · intro n hn
    rw [hpre]
    simp only [wbSet]
    rw [alistGet_wbSetRows, if_neg hn]
  · rw [hpre]
    refine ⟨pre ++ [fpNewRow locId x y z omin omax total readings
      (sortStrings S)], ?_, getLast?_snoc _ _⟩
    simp only [wbSet]
    rw [alistGet_wbSetRows, if_pos rfl]
  · intro wb2 hwb2
    rw [hpreG] at hwb2
    cases hwb2
    constructor
    · intro n hn
      simp only [wbSet]
      rw [alistGet_wbSetRows, if_neg hn]
    · refine ⟨preG ++ [gwNewRow mac dist rssi ts], ?_, getLast?_snoc _ _⟩
      simp only [wbSet]
      rw [alistGet_wbSetRows, if_pos rfl]

/-- C7 amended witness. -/
theorem merge_writes_fixed_sheet_frame_witness :
    (alistGet (fpWriteToExcel
        (.wb ⟨[("Fingerprint Data", [[Cell.s "Location ID"]]),
              ("Other", [[Cell.s "keep"]])]⟩)
        "p" (.fin 1) (.fin 2) (.fin 0) (-71) (-71) 1 [("X1", -71)]
        ["X1"]).2.sheets "Other" =
      alistGet [("Fingerprint Data", [[Cell.s "Location ID"]]),
                ("Other", [[Cell.s "keep"]])] "Other")
    ∧ (∃ d, alistGet (fpWriteToExcel
        (.wb ⟨[("Fingerprint Data", [[Cell.s "Location ID"]]),
              ("Other", [[Cell.s "keep"]])]⟩)
        "p" (.fin 1) (.fin 2) (.fin 0) (-71) (-71) 1 [("X1", -71)]
        ["X1"]).2.sheets "Fingerprint Data" = some d
        ∧ d.getLast? = some (fpNewRow "p" (.fin 1) (.fin 2) (.fin 0)
            (-71) (-71) 1 [("X1", -71)] (sortStrings ["X1"]))) := by
  have h := @merge_writes_fixed_sheet_frame
    ⟨[("Fingerprint Data", [[Cell.s "Location ID"]]),
      ("Other", [[Cell.s "keep"]])]⟩
    [[Cell.s "Location ID"]] (by decide)
    "p" (.fin 1) (.fin 2) (.fin 0) (-71) (-71) 1 [("X1", -71)] ["X1"]
    ⟨[("Calibration Data", [[Cell.s "Gateway MAC"]])]⟩
    [[Cell.s "Gateway MAC"]] (by decide)
    "AA" (.fin 2) (-60) "t0"
  exact ⟨h.1 "Other" (by decide), h.2.1⟩

/-! ### Claim C2 -/

theorem fp_two_cycles_schema (SA SB : List String)
    (hndA : SA.Nodup) (hndB : SB.Nodup)
    (hdisjBA : ∀ m ∈ SB, m ∉ SA)
    (hfrA : ∀ m ∈ SA, Cell.s m ∉ fpFreshHeaders.map Cell.s)
    (hfrB : ∀ m ∈ SB, Cell.s m ∉ fpFreshHeaders.map Cell.s)
    (locA : String) (xA yA zA : JSNum) (ominA omaxA : ℚ) (totA : ℕ)
    (rdsA : List (String × ℚ))
    (locB : String) (xB yB zB : JSNum) (ominB omaxB : ℚ) (totB : ℕ)
    (rdsB : List (String × ℚ)) :
    fpSchema (fpWriteToExcel
        (.wb (fpWriteToExcel .absent locA xA yA zA ominA omaxA totA rdsA SA).2)
        locB xB yB zB ominB omaxB totB rdsB SB).2
      = fpFreshHeaders.map Cell.s ++ (sortStrings SA).map Cell.s
        ++ (sortStrings SB).map Cell.s := by
  have hndA' : (sortStrings SA).Nodup := sortStrings_nodup hndA
  have hndB' : (sortStrings SB).Nodup := sortStrings_nodup hndB
  have hfrA' : ∀ m ∈ sortStrings SA, Cell.s m ∉ fpFreshHeaders.map Cell.s :=
    fun m hm => hfrA m (sortStrings_mem.mp hm)
  have h1 := fpWrite_absent locA xA yA zA ominA omaxA totA rdsA SA hndA' hfrA'
  have h1' : (fpWriteToExcel .absent locA xA yA zA ominA omaxA totA rdsA SA).2
      = ⟨[("Fingerprint Data",
        [fpFreshHeaders.map Cell.s ++ (sortStrings SA).map Cell.s,
         fpNewRow locA xA yA zA ominA omaxA totA rdsA (sortStrings SA)])]⟩ := by
    rw [h1]
  rw [h1']
  have hmem : ∀ m ∈ sortStrings SB,
      Cell.s m ∉ fpFreshHeaders.map Cell.s ++ (sortStrings SA).map Cell.s := by
    intro m hm hcon
    rcases List.mem_append.mp hcon with hl | hr
    · exact hfrB m (sortStrings_mem.mp hm) hl
    · rcases List.mem_map.mp hr with ⟨a, ha, hae⟩
      have ham : a = m := Cell.s.inj hae
      subst ham
      exact hdisjBA a (sortStrings_mem.mp hm) (sortStrings_mem.mp ha)
  have h2 := fpWrite_second
    (fpFreshHeaders.map Cell.s ++ (sortStrings SA).map Cell.s)
    (fpNewRow locA xA yA zA ominA omaxA totA rdsA (sortStrings SA))
    (([ "X (m)", "Y (m)", "Z (m)", "Min RSSI (dBm)", "Max RSSI (dBm)",
        "Total Samples"].map Cell.s) ++ (sortStrings SA).map Cell.s)
    rfl
    (by
      simp [fpNewRow_length, fpFreshHeaders]
      omega)
    (List.mem_append_left _ (by decide))
    locB xB yB zB ominB omaxB totB rdsB SB hndB' hmem
  have h2' : (fpWriteToExcel (.wb ⟨[("Fingerprint Data",
      [fpFreshHeaders.map Cell.s ++ (sortStrings SA).map Cell.s,
       fpNewRow locA xA yA zA ominA omaxA totA rdsA (sortStrings SA)])]⟩)
      locB xB yB zB ominB omaxB totB rdsB SB).2
      = ⟨[("Fingerprint Data",
        [(fpFreshHeaders.map Cell.s ++ (sortStrings SA).map Cell.s)
          ++ (sortStrings SB).map Cell.s,
         fpNewRow locA xA yA zA ominA omaxA totA rdsA (sortStrings SA),
         fpNewRow locB xB yB zB ominB omaxB totB rdsB (sortStrings SB)])]⟩ := by
    rw [h2]
  rw [h2']
  simp [fpSchema, alistGet]

/-- C2 counterexample: two cycles with disjoint source sets (`{X2}` then
`{X1}`) on an initially empty store produce the schema
`fixed ++ [X2, X1]` — the new column is appended after existing ones, so the
schema is *not* the lexicographically sorted union and *does* depend on the
order of the two cycles. -/
theorem fp_schema_not_sorted_union_counterexample :
    (let wbAB := (fpWriteToExcel
        (.wb (fpWriteToExcel .absent "a" (.fin 0) (.fin 0) (.fin 0) (-60) (-60) 1
          [("X2", -60)] ["X2"]).2)
        "b" (.fin 1) (.fin 1) (.fin 0) (-50) (-50) 1 [("X1", -50)] ["X1"]).2
     let wbBA := (fpWriteToExcel
        (.wb (fpWriteToExcel .absent "b" (.fin 1) (.fin 1) (.fin 0) (-50) (-50) 1
          [("X1", -50)] ["X1"]).2)
        "a" (.fin 0) (.fin 0) (.fin 0) (-60) (-60) 1 [("X2", -60)] ["X2"]).2
     ¬(fpSchema wbAB = fpFreshHeaders.map Cell.s ++ [Cell.s "X1", Cell.s "X2"])
     ∧ ¬(fpSchema wbAB = fpSchema wbBA)) := by
  decide

/-- C2 amended: after two merge cycles with disjoint, duplicate-free source
sets (none colliding with a fixed column name) against an initially empty
store, the schema is the fixed context columns followed by the *first*
cycle's sources sorted and then the *second* cycle's sources sorted. The
resulting column *set* is the union of both cycles' sources and is the same
for either cycle order (the two schemas are permutations of each other), but
the column *order* is not the globally sorted union and depends on which
cycle ran first. -/
theorem fp_schema_two_cycles_append_order (SA SB : List String)
    (hndA : SA.Nodup) (hndB : SB.Nodup)
    (hdisj : ∀ m ∈ SA, m ∉ SB)
    (hfrA : ∀ m ∈ SA, Cell.s m ∉ fpFreshHeaders.map Cell.s)
    (hfrB : ∀ m ∈ SB, Cell.s m ∉ fpFreshHeaders.map Cell.s)
    (locA : String) (xA yA zA : JSNum) (ominA omaxA : ℚ) (totA : ℕ)
    (rdsA : List (String × ℚ))
    (locB : String) (xB yB zB : JSNum) (ominB omaxB : ℚ) (totB : ℕ)
    (rdsB : List (String × ℚ)) :
    fpSchema (fpWriteToExcel
        (.wb (fpWriteToExcel .absent locA xA yA zA ominA omaxA totA rdsA SA).2)
        locB xB yB zB ominB omaxB totB rdsB SB).2
      = fpFreshHeaders.map Cell.s ++ (sortStrings SA).map Cell.s
        ++ (sortStrings SB).map Cell.s
    ∧ fpSchema (fpWriteToExcel
        (.wb (fpWriteToExcel .absent locB xB yB zB ominB omaxB totB rdsB SB).2)
        locA xA yA zA ominA omaxA totA rdsA SA).2
      = fpFreshHeaders.map Cell.s ++ (sortStrings SB).map Cell.s
        ++ (sortStrings SA).map Cell.s
    ∧ (fpFreshHeaders.map Cell.s ++ (sortStrings SA).map Cell.s
        ++ (sortStrings SB).map Cell.s).Perm
      (fpFreshHeaders.map Cell.s ++ (sortStrings SB).map Cell.s
        ++ (sortStrings SA).map Cell.s) := by
  have hdisjAB : ∀ m ∈ SB, m ∉ SA := by
    intro m hmB hmA
    exact hdisj m hmA hmB
  refine ⟨fp_two_cycles_schema SA SB hndA hndB hdisjAB hfrA hfrB
      locA xA yA zA ominA omaxA totA rdsA locB xB yB zB ominB omaxB totB rdsB,
    fp_two_cycles_schema SB SA hndB hndA hdisj hfrB hfrA
      locB xB yB zB ominB omaxB totB rdsB locA xA yA zA ominA omaxA totA rdsA,
    ?_⟩
  rw [List.append_assoc, List.append_assoc]
  exact List.Perm.append_left _ List.perm_append_comm

/-- C2 amended witness. -/
theorem fp_schema_two_cycles_append_order_witness :
    fpSchema (fpWriteToExcel
        (.wb (fpWriteToExcel .absent "a" (.fin 0) (.fin 0) (.fin 0) (-60) (-60) 1
          [("X2", -60)] ["X2"]).2)
        "b" (.fin 1) (.fin 1) (.fin 0) (-50) (-50) 1 [("X1", -50)] ["X1"]).2
      = fpFreshHeaders.map Cell.s ++ (sortStrings ["X2"]).map Cell.s
        ++ (sortStrings ["X1"]).map Cell.s :=
  (fp_schema_two_cycles_append_order ["X2"] ["X1"] (by decide) (by decide)
    (by decide) (by decide) (by decide)
    "a" (.fin 0) (.fin 0) (.fin 0) (-60) (-60) 1 [("X2", -60)]
    "b" (.fin 1) (.fin 1) (.fin 0) (-50) (-50) 1 [("X1", -50)]).1

/-! ### Claim C1 -/

/-- C1 (evaluated at the failing input): with a store whose fingerprint sheet
already has source column `X0` and a cycle that observed only `X1`, the
appended row is *not* aligned to the full column order: the code pushes the
observed gateways' values directly after the seven fixed cells, so `X1`'s
rounded mean lands in the cell under the `X0` column while the `X1` column
gets no cell at all (read back as the empty string over the sheet range) —
contradicting both "per-source rounded mean for each column in the current
full column order" and "a pre-existing source column not observed this cycle
receives an empty value, never another source's value". -/
theorem fp_append_misaligns_row_with_preexisting_column :
    (let store := Store.wb
      ⟨[("Fingerprint Data", [(fpFreshHeaders ++ ["X0"]).map Cell.s])]⟩
     let wb := (fpWriteToExcel store "p" (.fin 1) (.fin 2) (.fin 0)
        (-71) (-71) 1 [("X1", -71)] ["X1"]).2
     let rows := (alistGet wb.sheets "Fingerprint Data").getD []
     let hdr := (rows.head?).getD []
     let row := (rows.getLast?).getD []
     hdr[7]? = some (Cell.s "X0")
     ∧ hdr[8]? = some (Cell.s "X1")
     ∧ row[7]? = some (Cell.q (-71))
     ∧ row[8]? = none
     ∧ (padTo hdr.length row)[8]? = some (Cell.s "")) := by
  decide
